import Mathlib

/-!
Shallow embedding of the postprocessing core of `Florence.py`
(`Florence2Postprocess.apply`, lines 363-411, and
`Florence2PostprocessAll.apply`, lines 427-491).

Conventions of the embedding:
* Coordinates are `Int` (the source applies `int(...)` to every coordinate
  before using it; the claims only exercise integer inputs).
* A numpy mask is embedded as its value function `Int → Int → Nat`
  (row, column ↦ 0 or 1) together with its shape; the numpy slice
  assignment `mask[y1:y2, x1:x2] = 1` is `sliceSet`, which follows numpy
  basic-slicing semantics (negative indices wrap by the axis length, then
  both endpoints are clamped to `[0, n]`).
* Python's floor division `//` is `Int.fdiv`.
* Python's substring test `needle in hay` is `strIn`.
* `str.removeprefix("</s>")` is `stripLabel`.
* PIL's `ImageDraw.polygon` rasterizer is external library code, not part
  of this repository; it is modelled by `polyFill` (see its doc comment).
  No claim below depends on the exact pixels it fills: every claim that
  inspects a polygon-branch mask does so in a case where the source skips
  rendering, so the canvas stays black.
-/

/-- The `F_BBOXES` value consumed by both postprocess nodes: either a bare
string (upstream error), a box-form result (`width`, `height`, `bboxes`,
`labels`), or a polygon-form result (`width`, `height`, `polygons` as a list
of groups of flat coordinate lists, `labels`). -/
inductive FBBoxes where
  | str (s : String)
  | boxes (width height : Int) (bboxes : List (List Int)) (labels : List String)
  | polys (width height : Int) (polygons : List (List (List Int))) (labels : List String)

/-- A mask tensor: shape `(batch, height, width)` plus its value function. -/
structure Mask where
  batch : Nat
  height : Int
  width : Int
  val : Int → Int → Nat

/-- The 7-tuple both nodes return: `(mask, label, loc_string, width, height, x, y)`. -/
structure Output where
  mask : Mask
  label : String
  loc_string : String
  width : Int
  height : Int
  x : Int
  y : Int

/-- Normalize one numpy slice endpoint `a` over an axis of length `n`:
negative indices wrap by `n`, then the result is clamped to `[0, n]`. -/
def npIdx (a n : Int) : Int :=
  max 0 (min (if a < 0 then a + n else a) n)

/-- The numpy assignment `mask[y1:y2, x1:x2] = 1` on a mask of shape
`h × w` (source lines 387 and 464). -/
def sliceSet (m : Int → Int → Nat) (h w y1 y2 x1 x2 : Int) : Int → Int → Nat :=
  fun r c =>
    if (npIdx y1 h ≤ r ∧ r < npIdx y2 h) ∧ (npIdx x1 w ≤ c ∧ c < npIdx x2 w) then 1
    else m r c

/-- `label.removeprefix("</s>")` (source lines 377 and 443). -/
def stripLabel (s : String) : String :=
  if "</s>".isPrefixOf s then s.drop 4 else s

/-- Whether `n` occurs as a contiguous sublist of `hay`. -/
def listInfixOf (n : List Char) : List Char → Bool
  | [] => n.isEmpty
  | c :: t => n.isPrefixOf (c :: t) || listInfixOf n t

/-- Python's substring containment `needle in hay` (source line 444). -/
def strIn (needle hay : String) : Bool :=
  listInfixOf needle.data hay.data

/-- The elements at even positions of a flat coordinate list (`l[0::2]`). -/
def evens : List Int → List Int
  | [] => []
  | [x] => [x]
  | x :: _ :: rest => x :: evens rest

/-- The elements at odd positions of a flat coordinate list (`l[1::2]`). -/
def odds (l : List Int) : List Int :=
  evens l.tail

/-- Python `min` over a coordinate slice (never called on `[]` in the
source paths the claims exercise; defaults to 0). -/
def minL : List Int → Int
  | [] => 0
  | x :: xs => xs.foldl min x

/-- Python `max` over a coordinate slice (same proviso as `minL`). -/
def maxL : List Int → Int
  | [] => 0
  | x :: xs => xs.foldl max x

/-- Box normalization of `Florence2Postprocess.apply` (source lines
371, 379-386): 4 coordinates pass through, 8 coordinates take min/max of
even- and odd-indexed entries, any other length leaves the initialization
`x1 = y1 = x2 = y2 = 0`. -/
def boxCoords (bbox : List Int) : Int × Int × Int × Int :=
  if bbox.length = 4 then
    (bbox.getD 0 0, bbox.getD 1 0, bbox.getD 2 0, bbox.getD 3 0)
  else if bbox.length = 8 then
    (minL (evens bbox), minL (odds bbox), maxL (evens bbox), maxL (odds bbox))
  else (0, 0, 0, 0)

/-- Box normalization of `Florence2PostprocessAll.apply` (source lines
449-457): same as `boxCoords` except a bad length means `continue`. -/
def normBox (bbox : List Int) : Option (Int × Int × Int × Int) :=
  if bbox.length = 4 then
    some (bbox.getD 0 0, bbox.getD 1 0, bbox.getD 2 0, bbox.getD 3 0)
  else if bbox.length = 8 then
    some (minL (evens bbox), minL (odds bbox), maxL (evens bbox), maxL (odds bbox))
  else none

/-- The location string of source lines 410 and 490:
`f"<loc_{x1*999//width}><loc_{y1*999//height}><loc_{x2*999//width}><loc_{y2*999//height}>"`. -/
def locString (x1 y1 x2 y2 w h : Int) : String :=
  "<loc_" ++ toString ((x1 * 999).fdiv w) ++ "><loc_" ++ toString ((y1 * 999).fdiv h) ++
  "><loc_" ++ toString ((x2 * 999).fdiv w) ++ "><loc_" ++ toString ((y2 * 999).fdiv h) ++ ">"

/-- The shared return expression of source lines 409-411 and 489-491:
`(mask.unsqueeze(0), label, loc_string, x2-x1+1, y2-y1+1, x1, y1)`. -/
def mkOutput (w h : Int) (m : Int → Int → Nat) (label : String) (x1 y1 x2 y2 : Int) : Output :=
  ⟨⟨1, h, w, m⟩, label, locString x1 y1 x2 y2 w h, x2 - x1 + 1, y2 - y1 + 1, x1, y1⟩

/-- Modelled from the spec: the filled-polygon rasterizer. The source
delegates rendering to the external PIL library (`ImageDraw.polygon`,
"Render the polygon filled onto a blank same-size canvas"); its exact
pixel-level fill rule is not part of this repository, so it is modelled
here as an even-odd (ray-crossing) interior test. No claim inspects the
pixels of a rendered polygon, only cases where rendering is skipped. -/
def toPoints : List Int → List (Int × Int)
  | x :: y :: rest => (x, y) :: toPoints rest
  | _ => []

/-- The closed edge cycle of a point list. -/
def cyclePairs (pts : List (Int × Int)) : List ((Int × Int) × (Int × Int)) :=
  match pts with
  | [] => []
  | p :: rest => pts.zip (rest ++ [p])

/-- Whether the horizontal ray from `(px, py)` leftward-crosses the edge
`(xa, ya)-(xb, yb)` (integer cross-multiplied form). -/
def edgeCrosses (px py xa ya xb yb : Int) : Bool :=
  if ya ≤ py ∧ py < yb then (px - xa) * (yb - ya) < (py - ya) * (xb - xa)
  else if yb ≤ py ∧ py < ya then (px - xa) * (yb - ya) > (py - ya) * (xb - xa)
  else false

/-- Even-odd interior test for a flat coordinate list. -/
def pointInPoly (poly : List Int) (px py : Int) : Bool :=
  ((cyclePairs (toPoints poly)).countP
    (fun e => edgeCrosses px py e.1.1 e.1.2 e.2.1 e.2.2)) % 2 = 1

/-- The mask of one filled polygon on a `h × w` canvas (models the PIL
draw; see `toPoints`). -/
def polyFill (_w _h : Int) (poly : List Int) : Int → Int → Nat :=
  fun r c => if pointInPoly poly c r then 1 else 0

/-- `Florence2Postprocess.apply` (source lines 363-411): single-region
postprocess of one `F_BBOXES` value at `index`. -/
def Florence2Postprocess.apply (F : FBBoxes) (index : Nat) : Output :=
  match F with
  | .str s => ⟨⟨1, 512, 512, fun _ _ => 0⟩, s, "", 0, 0, 0, 0⟩
  | .boxes w h bs labs =>
    if index < labs.length then
      let bbox := bs.getD index []
      let label := stripLabel (labs.getD index "")
      let (x1, y1, x2, y2) := boxCoords bbox
      mkOutput w h (sliceSet (fun _ _ => 0) h w y1 y2 x1 x2) label x1 y1 x2 y2
    else
      mkOutput w h (fun _ _ => 0) "" 0 0 0 0
  | .polys w h gs labs =>
    let group := gs.getD 0 []
    if index < group.length then
      let polygon := group.getD index []
      let label := labs.getD 0 ""
      let canvas : Int → Int → Nat :=
        if polygon.length / 2 < 3 then fun _ _ => 0 else polyFill w h polygon
      mkOutput w h canvas label
        (minL (evens polygon)) (minL (odds polygon)) (maxL (evens polygon)) (maxL (odds polygon))
    else
      mkOutput w h (fun _ _ => 0) "" 0 0 0 0

/-- The loop state of `Florence2PostprocessAll.apply`'s box branch
(source lines 433-438): accumulated label, union bounds, mask. -/
structure AllState where
  label : String
  x1c : Int
  y1c : Int
  x2c : Int
  y2c : Int
  mval : Int → Int → Nat

/-- The label-accumulation step of source lines 443-447: strip the
marker, then append (comma-separated when `idx > 0`) unless the stripped
label is already a substring of the accumulation. -/
def labelStep (acc : String) (idx : Nat) (l : String) : String :=
  let n := stripLabel l
  if strIn n acc then acc
  else (if 0 < idx then acc ++ ", " else acc) ++ n

/-- One iteration of the box loop of `Florence2PostprocessAll.apply`
(source lines 440-464): the label is accumulated first, then a box with
neither 4 nor 8 coordinates hits `continue`, and a valid box widens the
union bounds and fills its footprint. -/
def allStep (w h : Int) (st : AllState) (idx : Nat) (bbox : List Int) (l : String) : AllState :=
  let label' := labelStep st.label idx l
  match normBox bbox with
  | none => { st with label := label' }
  | some (x1, y1, x2, y2) =>
      { label := label', x1c := min st.x1c x1, y1c := min st.y1c y1,
        x2c := max st.x2c x2, y2c := max st.y2c y2,
        mval := sliceSet st.mval h w y1 y2 x1 x2 }

/-- The box loop of `Florence2PostprocessAll.apply`, iterating boxes and
labels in lockstep with a running index. -/
def allLoop (w h : Int) (st : AllState) (idx : Nat) : List (List Int) → List String → AllState
  | [], _ => st
  | b :: bs, ls => allLoop w h (allStep w h st idx b (ls.headD "")) (idx + 1) bs ls.tail

/-- The polygon-group loop state of `Florence2PostprocessAll.apply`
(source lines 467-485): the PIL canvas and the union bounds. -/
structure PolyState where
  canvas : Int → Int → Nat
  x1c : Int
  y1c : Int
  x2c : Int
  y2c : Int

/-- One iteration of the polygon loop (source lines 474-485): a polygon
with fewer than 3 points is skipped, a valid one is drawn onto the shared
canvas and widens the union bounds. -/
def polyStep (w h : Int) (st : PolyState) (p : List Int) : PolyState :=
  if p.length / 2 < 3 then st
  else
    { canvas := fun r c => max (st.canvas r c) (polyFill w h p r c),
      x1c := min st.x1c (minL (evens p)), y1c := min st.y1c (minL (odds p)),
      x2c := max st.x2c (maxL (evens p)), y2c := max st.y2c (maxL (odds p)) }

/-- `Florence2PostprocessAll.apply` (source lines 427-491): all-regions
postprocess of one `F_BBOXES` value. -/
def Florence2PostprocessAll.apply (F : FBBoxes) : Output :=
  match F with
  | .str s => ⟨⟨1, 512, 512, fun _ _ => 0⟩, s, "", 0, 0, 0, 0⟩
  | .boxes w h bs labs =>
    let st := allLoop w h ⟨"", w, h, 0, 0, fun _ _ => 0⟩ 0 bs labs
    mkOutput w h st.mval st.label st.x1c st.y1c st.x2c st.y2c
  | .polys w h gs _labs =>
    let st := (gs.getD 0 []).foldl (polyStep w h) ⟨fun _ _ => 0, w, h, 0, 0⟩
    mkOutput w h st.canvas "" st.x1c st.y1c st.x2c st.y2c

/-- The label accumulation as the spec words it: walk the labels in
order; at position `idx`, strip the marker and append the stripped label
(preceded by ", " when `idx > 0`) unless it is already a substring of the
accumulation. Written independently of the loop state of
`Florence2PostprocessAll.apply`, to be compared against it. -/
def labelFoldSpec (acc : String) (idx : Nat) : List String → String
  | [] => acc
  | l :: ls =>
    let n := stripLabel l
    let acc' := if strIn n acc then acc else (if 0 < idx then acc ++ ", " else acc) ++ n
    labelFoldSpec acc' (idx + 1) ls

theorem locString_zero (w h : Int) : locString 0 0 0 0 w h = "<loc_0><loc_0><loc_0><loc_0>" := by
  unfold locString
  norm_num [Int.zero_fdiv]
  rfl

theorem locString_inv (w h : Int) (hw : w ≠ 0) (hh : h ≠ 0) :
    locString w h 0 0 w h = "<loc_999><loc_999><loc_0><loc_0>" := by
  unfold locString
  rw [show w * 999 = w * 999 from rfl, Int.mul_fdiv_cancel_left _ hw,
    Int.mul_fdiv_cancel_left _ hh]
  norm_num [Int.zero_fdiv]
  rfl

theorem foldl_polyStep_invalid (w h : Int) (l : List (List Int)) (st : PolyState)
    (hinv : ∀ p ∈ l, p.length / 2 < 3) : l.foldl (polyStep w h) st = st := by
  induction l generalizing st with
  | nil => rfl
  | cons p t ih =>
    rw [List.foldl_cons]
    rw [show polyStep w h st p = st by unfold polyStep; rw [if_pos (hinv p (by simp))]]
    exact ih st fun q hq => hinv q (by simp [hq])

theorem allStep_label (w h : Int) (st : AllState) (idx : Nat) (b : List Int) (l : String) :
    (allStep w h st idx b l).label = labelStep st.label idx l := by
  unfold allStep
  cases hn : normBox b with
  | none => rfl
  | some q => obtain ⟨x1, y1, x2, y2⟩ := q; rfl

theorem allLoop_label (w h : Int) (bs : List (List Int)) (ls : List String)
    (st : AllState) (idx : Nat) (hlen : bs.length = ls.length) :
    (allLoop w h st idx bs ls).label = labelFoldSpec st.label idx ls := by
  induction bs generalizing ls st idx with
  | nil =>
    cases ls with
    | nil => rfl
    | cons l t => simp at hlen
  | cons b bs ih =>
    cases ls with
    | nil => simp at hlen
    | cons l t =>
      show (allLoop w h (allStep w h st idx b l) (idx + 1) bs t).label = _
      rw [ih t _ (idx + 1) (by simpa using hlen), allStep_label]
      rfl

/-- C2: a bare string input makes both postprocess nodes return, without
raising, a 1×512×512 all-zero mask, the string itself as the label, an
empty location string, and zero width, height, x and y. -/
theorem florence_string_fallback (s : String) (index : Nat) :
    Florence2Postprocess.apply (.str s) index =
      ⟨⟨1, 512, 512, fun _ _ => 0⟩, s, "", 0, 0, 0, 0⟩ ∧
    Florence2PostprocessAll.apply (.str s) =
      ⟨⟨1, 512, 512, fun _ _ => 0⟩, s, "", 0, 0, 0, 0⟩ :=
  ⟨rfl, rfl⟩

/-- C9: both postprocess nodes are deterministic — they are pure
functions of their inputs, so identical inputs give identical outputs. -/
theorem florence_postprocess_deterministic (F F' : FBBoxes) (i i' : Nat)
    (hF : F = F') (hi : i = i') :
    Florence2Postprocess.apply F i = Florence2Postprocess.apply F' i' ∧
    Florence2PostprocessAll.apply F = Florence2PostprocessAll.apply F' := by
  subst hF; subst hi; exact ⟨rfl, rfl⟩

theorem florence_postprocess_deterministic_witness :
    Florence2Postprocess.apply (.str "e") 0 = Florence2Postprocess.apply (.str "e") 0 ∧
    Florence2PostprocessAll.apply (.str "e") = Florence2PostprocessAll.apply (.str "e") :=
  florence_postprocess_deterministic (.str "e") (.str "e") 0 0 rfl rfl

/-- C3: on a box-form result, an index at or past the end of `labels`
never raises and yields the all-zero `height × width` mask, empty label,
location string `<loc_0><loc_0><loc_0><loc_0>`, x = y = 0 and region
width = height = 1. -/
theorem florence_single_oob_index (w h : Int) (bs : List (List Int)) (labs : List String)
    (index : Nat) (hidx : labs.length ≤ index) (_hw : 0 < w) (_hh : 0 < h) :
    Florence2Postprocess.apply (.boxes w h bs labs) index =
      ⟨⟨1, h, w, fun _ _ => 0⟩, "", "<loc_0><loc_0><loc_0><loc_0>", 1, 1, 0, 0⟩ := by
  have hlt : ¬ index < labs.length := by omega
  simp only [Florence2Postprocess.apply]
  rw [if_neg hlt]
  unfold mkOutput
  rw [locString_zero]
  norm_num

theorem florence_single_oob_index_witness :
    (["z"] : List String).length ≤ 99 ∧ (0 : Int) < 5 ∧
    Florence2Postprocess.apply (.boxes 5 5 [[1, 2, 3, 4]] ["z"]) 99 =
      ⟨⟨1, 5, 5, fun _ _ => 0⟩, "", "<loc_0><loc_0><loc_0><loc_0>", 1, 1, 0, 0⟩ := by
  refine ⟨by decide, by decide, ?_⟩
  exact florence_single_oob_index 5 5 [[1, 2, 3, 4]] ["z"] 99 (by decide) (by decide) (by decide)

/-- C1: a box-form result with one box `[10,20,30,40]` in a 100×100
image yields, at index 0, x = 10, y = 20, region width = height = 21, a
100×100 mask that is 1 exactly on the half-open pixel block rows 20..39
and columns 10..29, and the location string
`<loc_99><loc_199><loc_299><loc_399>` (each code being
coordinate * 999 // axis extent). -/
theorem florence_single_box_roundtrip (lab : String) :
    (Florence2Postprocess.apply (.boxes 100 100 [[10, 20, 30, 40]] [lab]) 0).x = 10 ∧
    (Florence2Postprocess.apply (.boxes 100 100 [[10, 20, 30, 40]] [lab]) 0).y = 20 ∧
    (Florence2Postprocess.apply (.boxes 100 100 [[10, 20, 30, 40]] [lab]) 0).width = 21 ∧
    (Florence2Postprocess.apply (.boxes 100 100 [[10, 20, 30, 40]] [lab]) 0).height = 21 ∧
    (Florence2Postprocess.apply (.boxes 100 100 [[10, 20, 30, 40]] [lab]) 0).mask.batch = 1 ∧
    (Florence2Postprocess.apply (.boxes 100 100 [[10, 20, 30, 40]] [lab]) 0).mask.height = 100 ∧
    (Florence2Postprocess.apply (.boxes 100 100 [[10, 20, 30, 40]] [lab]) 0).mask.width = 100 ∧
    (Florence2Postprocess.apply (.boxes 100 100 [[10, 20, 30, 40]] [lab]) 0).loc_string
      = "<loc_99><loc_199><loc_299><loc_399>" ∧
    (∀ r c : Int, (Florence2Postprocess.apply (.boxes 100 100 [[10, 20, 30, 40]] [lab]) 0).mask.val r c
      = if 20 ≤ r ∧ r < 40 ∧ 10 ≤ c ∧ c < 30 then 1 else 0) := by
  refine ⟨rfl, rfl, rfl, rfl, rfl, rfl, rfl, rfl, ?_⟩
  intro r c
  show sliceSet (fun _ _ => 0) 100 100 20 40 10 30 r c = _
  simp only [sliceSet]
  norm_num [npIdx]
  split_ifs <;> omega

/-- C4: on a 40×40 box-form result with exactly the two boxes
`[0,0,10,10]` and `[20,20,30,30]`, `Florence2PostprocessAll.apply`
returns union bounds x = 0, y = 0, region width = height = 31, a mask
that is 1 exactly inside the two half-open box footprints, and the two
stripped labels joined by ", " (under the loop's substring-containment
deduplication, the second label not being contained in the first). -/
theorem florence_all_union_two_boxes (l0 l1 : String)
    (hdedup : strIn (stripLabel l1) (stripLabel l0) = false) :
    let o := Florence2PostprocessAll.apply
      (.boxes 40 40 [[0, 0, 10, 10], [20, 20, 30, 30]] [l0, l1])
    o.x = 0 ∧ o.y = 0 ∧ o.width = 31 ∧ o.height = 31 ∧
    o.label = stripLabel l0 ++ ", " ++ stripLabel l1 ∧
    (∀ r c : Int, o.mask.val r c =
      if (0 ≤ r ∧ r < 10 ∧ 0 ≤ c ∧ c < 10) ∨ (20 ≤ r ∧ r < 30 ∧ 20 ≤ c ∧ c < 30)
      then 1 else 0) := by
  refine ⟨rfl, rfl, rfl, rfl, ?_, ?_⟩
  · show (allLoop 40 40 ⟨"", 40, 40, 0, 0, fun _ _ => 0⟩ 0
      [[0, 0, 10, 10], [20, 20, 30, 30]] [l0, l1]).label = _
    show labelStep (labelStep "" 0 l0) 1 l1 = _
    have h0 : labelStep "" 0 l0 = stripLabel l0 := by
      unfold labelStep
      by_cases hc : strIn (stripLabel l0) "" = true
      · rw [if_pos hc]
        have hd : (stripLabel l0).data = [] := by
          have := hc
          unfold strIn at this
          simpa [listInfixOf] using this
        cases hs : stripLabel l0 with
        | mk d => rw [hs] at hd; simp only at hd; rw [hd]
      · rw [if_neg hc]
        simp [String.empty_append]
    rw [h0]
    unfold labelStep
    rw [if_neg (by simp [hdedup])]
    simp [String.append_assoc]
  · intro r c
    show sliceSet (sliceSet (fun _ _ => 0) 40 40 0 10 0 10) 40 40 20 30 20 30 r c = _
    simp only [sliceSet]
    norm_num [npIdx]
    split_ifs <;> omega

theorem florence_all_union_two_boxes_witness :
    strIn (stripLabel "dog") (stripLabel "cat") = false ∧
    (let o := Florence2PostprocessAll.apply
      (.boxes 40 40 [[0, 0, 10, 10], [20, 20, 30, 30]] ["cat", "dog"])
    o.x = 0 ∧ o.y = 0 ∧ o.width = 31 ∧ o.height = 31 ∧
    o.label = stripLabel "cat" ++ ", " ++ stripLabel "dog" ∧
    (∀ r c : Int, o.mask.val r c =
      if (0 ≤ r ∧ r < 10 ∧ 0 ≤ c ∧ c < 10) ∨ (20 ≤ r ∧ r < 30 ∧ 20 ≤ c ∧ c < 30)
      then 1 else 0)) :=
  ⟨by decide, florence_all_union_two_boxes "cat" "dog" (by decide)⟩

/-- C10: with an empty `bboxes` sequence (or a first polygon group whose
polygons all have fewer than 3 points), `Florence2PostprocessAll.apply`
keeps the inverted initial bounds x1_c = width, y1_c = height,
x2_c = y2_c = 0 and returns an all-zero mask, empty label, location
string `<loc_999><loc_999><loc_0><loc_0>`, x = width, y = height, and
region width = 1 - width, region height = 1 - height. -/
theorem florence_all_empty_inverted_bounds (w h : Int) (labs labs2 : List String)
    (gs : List (List (List Int))) (hw : 0 < w) (hh : 0 < h)
    (hinv : ∀ p ∈ gs.getD 0 [], p.length / 2 < 3) :
    Florence2PostprocessAll.apply (.boxes w h [] labs) =
      ⟨⟨1, h, w, fun _ _ => 0⟩, "", "<loc_999><loc_999><loc_0><loc_0>", 1 - w, 1 - h, w, h⟩ ∧
    Florence2PostprocessAll.apply (.polys w h gs labs2) =
      ⟨⟨1, h, w, fun _ _ => 0⟩, "", "<loc_999><loc_999><loc_0><loc_0>", 1 - w, 1 - h, w, h⟩ := by
  constructor
  · show mkOutput w h (fun _ _ => 0) "" w h 0 0 = _
    unfold mkOutput
    rw [locString_inv w h (by omega) (by omega)]
    norm_num
    omega
  · show mkOutput w h ((gs.getD 0 []).foldl (polyStep w h) ⟨fun _ _ => 0, w, h, 0, 0⟩).canvas ""
      ((gs.getD 0 []).foldl (polyStep w h) ⟨fun _ _ => 0, w, h, 0, 0⟩).x1c
      ((gs.getD 0 []).foldl (polyStep w h) ⟨fun _ _ => 0, w, h, 0, 0⟩).y1c
      ((gs.getD 0 []).foldl (polyStep w h) ⟨fun _ _ => 0, w, h, 0, 0⟩).x2c
      ((gs.getD 0 []).foldl (polyStep w h) ⟨fun _ _ => 0, w, h, 0, 0⟩).y2c = _
    rw [foldl_polyStep_invalid w h _ _ hinv]
    unfold mkOutput
    rw [locString_inv w h (by omega) (by omega)]
    norm_num
    omega

theorem florence_all_empty_inverted_bounds_witness :
    (0 : Int) < 40 ∧ (∀ p ∈ ([[[1, 2, 3, 4]]] : List (List (List Int))).getD 0 [], p.length / 2 < 3) ∧
    Florence2PostprocessAll.apply (.boxes 40 40 ([] : List (List Int)) ["x"]) =
      ⟨⟨1, 40, 40, fun _ _ => 0⟩, "", "<loc_999><loc_999><loc_0><loc_0>", 1 - 40, 1 - 40, 40, 40⟩ ∧
    Florence2PostprocessAll.apply (.polys 40 40 [[[1, 2, 3, 4]]] ["x"]) =
      ⟨⟨1, 40, 40, fun _ _ => 0⟩, "", "<loc_999><loc_999><loc_0><loc_0>", 1 - 40, 1 - 40, 40, 40⟩ := by
  refine ⟨by decide, by decide, ?_, ?_⟩ <;>
  · have := florence_all_empty_inverted_bounds 40 40 ["x"] ["x"] [[[1, 2, 3, 4]]]
      (by decide) (by decide) (by decide)
    exact this.1

/-- C5 counterexample: on the polygon-form result whose single 2-point
polygon is `[10,20,30,40]` with group label `"cat"` in a 100×100 image,
`Florence2Postprocess.apply` at index 0 returns a blank mask but NOT the
degenerate empty-geometry output: the label is the group label and the
bounds come from the invalid polygon's coordinates. -/
theorem florence_single_invalid_polygon_cex :
    let o := Florence2Postprocess.apply (.polys 100 100 [[[10, 20, 30, 40]]] ["cat"]) 0
    o.label = "cat" ∧ o.x = 10 ∧ o.y = 20 ∧ o.width = 21 ∧ o.height = 21 ∧
    o.loc_string = "<loc_99><loc_199><loc_299><loc_399>" ∧
    ¬(o.label = "" ∧ o.x = 0 ∧ o.y = 0 ∧ o.width = 1 ∧ o.height = 1 ∧
      o.loc_string = "<loc_0><loc_0><loc_0><loc_0>") := by
  decide

/-- C5 amended: a polygon-form result whose first group starts with a
single 2-point polygon `[a,b,c,d]` never raises at index 0 and yields a
fully blank mask (rendering is skipped), but the label is the group's
first label (not `""`) and the geometry is still derived from the
invalid polygon: x = min a c, y = min b d, region width and height are
the coordinate extents plus one, and the location string is computed
from these bounds. -/
theorem florence_single_invalid_polygon_amended (w h a b c d : Int) (lab : String)
    (rest : List (List (List Int))) (restLabs : List String) :
    Florence2Postprocess.apply (.polys w h ([[a, b, c, d]] :: rest) (lab :: restLabs)) 0 =
      ⟨⟨1, h, w, fun _ _ => 0⟩, lab, locString (min a c) (min b d) (max a c) (max b d) w h,
        max a c - min a c + 1, max b d - min b d + 1, min a c, min b d⟩ := by
  have hcanvas : (if ([a, b, c, d] : List Int).length / 2 < 3 then (fun _ _ => (0 : Nat))
      else polyFill w h [a, b, c, d]) = fun _ _ => 0 := by
    rw [if_pos (by norm_num)]
  show mkOutput w h (if ([a, b, c, d] : List Int).length / 2 < 3 then (fun _ _ => (0 : Nat))
      else polyFill w h [a, b, c, d]) lab (min a c) (min b d) (max a c) (max b d) = _
  rw [hcanvas]
  rfl

/-- C6 counterexample: in `Florence2PostprocessAll.apply`, a box with 3
coordinates does contribute to the accumulated label string (labels are
accumulated before the coordinate-count check), so it is not skipped
entirely: with the malformed box `[1,2,3]` labelled `"bad"` present the
output label is `"bad, ok"`, while without it the label is `"ok"`. -/
theorem florence_all_malformed_box_cex :
    (Florence2PostprocessAll.apply (.boxes 10 10 [[1, 2, 3], [0, 0, 5, 5]] ["bad", "ok"])).label
      = "bad, ok" ∧
    (Florence2PostprocessAll.apply (.boxes 10 10 [[0, 0, 5, 5]] ["ok"])).label = "ok" ∧
    ("bad, ok" : String) ≠ "ok" := by
  decide

/-- C6 amended: in `Florence2PostprocessAll.apply`, a box whose
coordinate count is neither 4 nor 8 contributes nothing to the mask or
the accumulated union bounds and the remaining boxes are still
processed, but its stripped label IS still accumulated into the label
string (the label step of source lines 443-447 runs before the
coordinate-count check of lines 449-457). -/
theorem florence_all_malformed_box_amended (w h : Int) (st : AllState) (idx : Nat)
    (b : List Int) (l : String) (bs : List (List Int)) (ls : List String)
    (h4 : b.length ≠ 4) (h8 : b.length ≠ 8) :
    allStep w h st idx b l = { st with label := labelStep st.label idx l } ∧
    allLoop w h st idx (b :: bs) (l :: ls) =
      allLoop w h { st with label := labelStep st.label idx l } (idx + 1) bs ls := by
  have hn : normBox b = none := by unfold normBox; rw [if_neg h4, if_neg h8]
  have h1 : allStep w h st idx b l = { st with label := labelStep st.label idx l } := by
    unfold allStep
    rw [hn]
  refine ⟨h1, ?_⟩
  show allLoop w h (allStep w h st idx b l) (idx + 1) bs ls = _
  rw [h1]

theorem florence_all_malformed_box_amended_witness :
    ([1, 2, 3] : List Int).length ≠ 4 ∧ ([1, 2, 3] : List Int).length ≠ 8 ∧
    (allStep 10 10 ⟨"", 10, 10, 0, 0, fun _ _ => 0⟩ 0 [1, 2, 3] "bad" =
      { (⟨"", 10, 10, 0, 0, fun _ _ => 0⟩ : AllState) with label := labelStep "" 0 "bad" } ∧
    allLoop 10 10 ⟨"", 10, 10, 0, 0, fun _ _ => 0⟩ 0 [[1, 2, 3]] ["bad"] =
      allLoop 10 10 { (⟨"", 10, 10, 0, 0, fun _ _ => 0⟩ : AllState) with
        label := labelStep "" 0 "bad" } 1 [] []) :=
  ⟨by decide, by decide,
    florence_all_malformed_box_amended 10 10 ⟨"", 10, 10, 0, 0, fun _ _ => 0⟩ 0 [1, 2, 3] "bad"
      [] [] (by decide) (by decide)⟩

/-- C7: the label output of `Florence2PostprocessAll.apply` on a
box-form result follows exactly the position-indexed dedup fold
`labelFoldSpec`: at position idx the stripped label is appended
(preceded by ", " when idx > 0) if and only if it is not a substring of
the accumulation so far — dedup by substring containment, not exact
match, and independent of box validity or geometry. -/
theorem florence_all_label_dedup (w h : Int) (bs : List (List Int)) (labs : List String)
    (hlen : bs.length = labs.length) :
    (Florence2PostprocessAll.apply (.boxes w h bs labs)).label = labelFoldSpec "" 0 labs := by
  show (allLoop w h ⟨"", w, h, 0, 0, fun _ _ => 0⟩ 0 bs labs).label = labelFoldSpec "" 0 labs
  exact allLoop_label w h bs labs _ 0 hlen

theorem florence_all_label_dedup_witness :
    ([[0, 0, 1, 1], [1, 2, 3]] : List (List Int)).length
      = (["</s>cat", "cat"] : List String).length ∧
    (Florence2PostprocessAll.apply (.boxes 8 8 [[0, 0, 1, 1], [1, 2, 3]] ["</s>cat", "cat"])).label
      = labelFoldSpec "" 0 ["</s>cat", "cat"] :=
  ⟨by decide,
    florence_all_label_dedup 8 8 [[0, 0, 1, 1], [1, 2, 3]] ["</s>cat", "cat"] (by decide)⟩

/-- C8: on a box-form result whose box at an in-range index has 8
coordinates, `Florence2Postprocess.apply` behaves exactly as if that box
were replaced by the axis-aligned 4-coordinate box (min of even-indexed,
min of odd-indexed, max of even-indexed, max of odd-indexed); in
particular the quad `[10,40,30,40,30,20,10,20]` gives the same output as
`[10,20,30,40]` (see the witness). -/
theorem florence_single_quad_normalization (w h : Int) (bs : List (List Int))
    (labs : List String) (i : Nat) (q : List Int) (hib : i < bs.length)
    (hil : i < labs.length) (hq : bs.getD i [] = q) (hlen : q.length = 8) :
    Florence2Postprocess.apply (.boxes w h bs labs) i =
      Florence2Postprocess.apply
        (.boxes w h (bs.set i [minL (evens q), minL (odds q), maxL (evens q), maxL (odds q)])
          labs) i := by
  have hset : (bs.set i [minL (evens q), minL (odds q), maxL (evens q), maxL (odds q)]).getD i []
      = [minL (evens q), minL (odds q), maxL (evens q), maxL (odds q)] := by
    rw [List.getD_eq_getElem?_getD, List.getElem?_set_self (by simpa using hib)]
    rfl
  have h1 : boxCoords q = (minL (evens q), minL (odds q), maxL (evens q), maxL (odds q)) := by
    unfold boxCoords
    rw [if_neg (by omega), if_pos hlen]
  have h2 : boxCoords [minL (evens q), minL (odds q), maxL (evens q), maxL (odds q)]
      = (minL (evens q), minL (odds q), maxL (evens q), maxL (odds q)) := rfl
  simp only [Florence2Postprocess.apply]
  rw [if_pos hil, if_pos hil, hq, hset, h1, h2]

theorem florence_single_quad_normalization_witness :
    Florence2Postprocess.apply (.boxes 100 100 [[10, 40, 30, 40, 30, 20, 10, 20]] ["a"]) 0 =
      Florence2Postprocess.apply (.boxes 100 100 [[10, 20, 30, 40]] ["a"]) 0 := by
  have h := florence_single_quad_normalization 100 100 [[10, 40, 30, 40, 30, 20, 10, 20]] ["a"]
    0 [10, 40, 30, 40, 30, 20, 10, 20] (by decide) (by decide) rfl (by decide)
  exact h
